import Mathlib

/- Verification of the enzyme-kinetics stochastic step kernel of this
repository: the aggregated tau-leap kernel `simulateTick` and the hybrid
binomial sampler `sampleBinomial` of `src/lib/precise-simulation.ts`, and
the N-step drivers exposed as `simulate_steps_final` / `simulate_steps_series`.

Modelling conventions (shallow embedding):
* JavaScript 64-bit floats and `decimal.js` values are modelled as exact
  rationals.  Every operation the kernel performs on them is one of
  addition, subtraction, multiplication, division, `max`, `min`, `floor`
  and `round`, all of which are exact here.
* `Math.exp` and `Math.sqrt` are transcendental, so they are abstracted as
  fields `expNeg` (the map sending x to exp (-x)) and `sqrtQ` of a
  structure `Flt`; theorems that depend on a particular value of the f64
  exponential take that value as a hypothesis, and concrete instantiations
  only use values the f64 function really takes (for instance
  Math.exp (-2500) underflows to exactly 0 in f64).
* `Math.random()` draws are an oracle stream `unif`; the Box–Muller
  standard-normal variates of `randStdNormal` are a second oracle stream
  `nrm` (the transform of two uniforms through sqrt, log and cos is
  transcendental, and its outcome ranges over all reals, so quantifying
  over an arbitrary stream of rational outcomes models every outcome of
  the draws).  A sampler threads an explicit cursor `RSt` through the
  streams, so a fixed oracle determines the whole run deterministically.
* the Knuth Poisson loop of `samplePoisson` multiplies uniforms until the
  running product falls below exp (-lambda); this is not structurally
  terminating, so the loop carries an explicit fuel bound `Rng.fuel` and
  exits with the current count when the fuel runs out (the bounds proved
  about the sampler hold for every fuel value).
-/

namespace EnzymeSim

/-- JavaScript `Math.round`: round half toward positive infinity. -/
def roundJS (x : ℚ) : ℤ := ⌊x + 1 / 2⌋

/-- Abstract model of the transcendental f64 operations used by the kernel:
`expNeg x` stands for `Math.exp (-x)` and `sqrtQ` for `Math.sqrt`. -/
structure Flt where
  expNeg : ℚ → ℚ
  sqrtQ : ℚ → ℚ

/-- Oracle for the random source: `unif` is the stream of `Math.random()`
outcomes, `nrm` the stream of `randStdNormal()` outcomes, and `fuel` the
bound on the Knuth Poisson loop. -/
structure Rng where
  unif : ℕ → ℚ
  nrm : ℕ → ℚ
  fuel : ℕ

/-- Cursor into the two oracle streams. -/
structure RSt where
  ui : ℕ
  zi : ℕ
deriving DecidableEq

/-- The direct Bernoulli sum of `sampleBinomial` for small n:
`for (let i = 0; i < nn; i++) if (randF64() < pp) c += 1`. -/
def bernoulliCount (rng : Rng) (pp : ℚ) (ui : ℕ) : ℕ → ℕ
  | 0 => 0
  | m + 1 => bernoulliCount rng pp ui m + (if rng.unif (ui + m) < pp then 1 else 0)

/-- The Knuth multiply-uniforms loop of `samplePoisson`:
`do { k += 1; p *= randF64() } while (p > l)`.  Returns the final k and the
next uniform index; on fuel exhaustion it exits with the current count. -/
def poissonIter (rng : Rng) (l : ℚ) : ℕ → ℕ → ℚ → ℕ → ℕ × ℕ
  | 0, ui, _, k => (k, ui)
  | fuel + 1, ui, p, k =>
    let p2 := p * rng.unif ui
    if l < p2 then poissonIter rng l fuel (ui + 1) p2 (k + 1)
    else (k + 1, ui + 1)

/-- Poisson sampler for small lambda (`samplePoisson` in the source):
returns 0 for lambda <= 0, otherwise runs the Knuth loop against
`l = exp (-lambda)` and returns k - 1. -/
def samplePoisson (F : Flt) (rng : Rng) (lam : ℚ) (ui : ℕ) : ℕ × ℕ :=
  if lam ≤ 0 then (0, ui)
  else
    let r := poissonIter rng (F.expNeg lam) rng.fuel ui 1 0
    (r.1 - 1, r.2)

/-- Body of `sampleBinomial` after the input normalization
`nn = Math.max(0, Math.floor(n))`, `pp = Math.max(0, Math.min(1, p))`.
The source binds a boolean `mutate = pp > 0.5`; here the condition is
inlined at its two use sites. -/
def sampleBinomialCore (F : Flt) (rng : Rng) (nn : ℤ) (pp0 : ℚ) (σ : RSt) : ℤ × RSt :=
  if nn ≤ 0 ∨ pp0 ≤ 0 then (0, σ)
  else if 1 ≤ pp0 then (nn, σ)
  else
    let pp : ℚ := if 1 / 2 < pp0 then 1 - pp0 else pp0
    let mean : ℚ := (nn : ℚ) * pp
    let vr : ℚ := mean * (1 - pp)
    let r : ℤ × RSt :=
      if nn < 50 then
        ((bernoulliCount rng pp σ.ui nn.toNat : ℤ), ⟨σ.ui + nn.toNat, σ.zi⟩)
      else if mean < 30 then
        let q := samplePoisson F rng mean σ.ui
        (min nn (q.1 : ℤ), ⟨q.2, σ.zi⟩)
      else
        let z := rng.nrm σ.zi
        let k0 : ℤ := roundJS (mean + z * F.sqrtQ vr)
        (min nn (max 0 k0), ⟨σ.ui, σ.zi + 1⟩)
    (if 1 / 2 < pp0 then nn - r.1 else r.1, r.2)

/-- `sampleBinomial(n, p)` of `src/lib/precise-simulation.ts`: normalize the
inputs, then dispatch between the Bernoulli sum, the clamped Poisson
approximation and the clamped normal approximation, keeping the working
probability at most one half by symmetry. -/
def sampleBinomial (F : Flt) (rng : Rng) (n p : ℚ) (σ : RSt) : ℤ × RSt :=
  sampleBinomialCore F rng (max 0 ⌊n⌋) (max 0 (min 1 p)) σ

/-- State of the simulation (`SimulationState`); `EL` is the free-enzyme
count and `TIEMPO` the elapsed time. -/
structure SimState where
  EL : ℚ
  ES : ℚ
  EP : ℚ
  S : ℚ
  P : ℚ
  TIEMPO : ℚ
deriving DecidableEq

/-- Parameters of a tick (`SimulationParams`): the snapshot populations
`NEL`, `NES`, `NEP`, the unused compatibility fields `NS`, `NP`, the six
rate constants, and the optional time step `dt`. -/
structure SimParams where
  NEL : ℚ
  NES : ℚ
  NEP : ℚ
  NS : ℚ
  NP : ℚ
  k1 : ℚ
  kMinus3 : ℚ
  kMinus1 : ℚ
  k2 : ℚ
  kMinus2 : ℚ
  k3 : ℚ
  dt : Option ℚ
deriving DecidableEq

/-- Per-block normalized time step:
`DT.isFinite() && DT.greaterThan(0) ? DT.toNumber() : 1`.
The model's rational Decimal values are always finite, so the finiteness
guard reduces to the positivity test. -/
def dtNorm (DT : ℚ) : ℚ := if 0 < DT then DT else 1

/-- The capping-with-reassignment step of the E block (source lines
"Cap by available S/P and reassign overflow symmetrically"): cap each raw
demand at its resource, then redirect each channel's overflow to the other
channel up to that channel's remaining unused capacity. -/
def capReassign (nEsRaw nEpRaw sAvail pAvail : ℤ) : ℤ × ℤ :=
  let nEs1 := min nEsRaw sAvail
  let nEp1 := min nEpRaw pAvail
  let sLeft := sAvail - nEs1
  let pLeft := pAvail - nEp1
  let oEs := nEsRaw - nEs1
  let oEp := nEpRaw - nEp1
  let nEp := if 0 < oEs ∧ 0 < pLeft then nEp1 + min oEs pLeft else nEp1
  let nEs := if 0 < oEp ∧ 0 < sLeft then nEs1 + min oEp sLeft else nEs1
  (nEs, nEp)

/-- The free-E block of `simulateTick` (aggregated, with resource capping
and overflow reassignment).  Arguments are the two rate constants k1 and
k-3, the snapshot population `NEL`, the current (already clamped) S and P,
and the raw time step.  Returns ((nEs, nEp, nReact), next cursor). -/
def eBlockCounts (F : Flt) (rng : Rng) (k1v km3 NELv Sv Pv DTv : ℚ) (σ : RSt) :
    (ℤ × ℤ × ℤ) × RSt :=
  let nel : ℤ := max 0 (roundJS NELv)
  let l1 : ℚ := max 0 (k1v * max 0 Sv)
  let l2 : ℚ := max 0 (km3 * max 0 Pv)
  let ls : ℚ := l1 + l2
  let dtNum : ℚ := dtNorm DTv
  let pTot : ℚ := if 0 < ls then 1 - F.expNeg (ls * dtNum) else 0
  let r1 := sampleBinomial F rng (nel : ℚ) pTot σ
  let nReact := r1.1
  let frac1 : ℚ := if 0 < ls then max 0 (min 1 (l1 / ls)) else 0
  let r2 := sampleBinomial F rng (nReact : ℚ) frac1 r1.2
  let nEsRaw := r2.1
  let nEpRaw := nReact - nEsRaw
  let sAvail : ℤ := max 0 ⌊Sv⌋
  let pAvail : ℤ := max 0 ⌊Pv⌋
  let cr := capReassign nEsRaw nEpRaw sAvail pAvail
  ((cr.1, cr.2, nReact), r2.2)

/-- The ES and EP blocks of `simulateTick` share this aggregated
competing-risks shape: population `N`, a back rate and a forward rate.
Returns ((toBack, toFwd), next cursor). -/
def convBlockCounts (F : Flt) (rng : Rng) (kBack kFwd Nv DTv : ℚ) (σ : RSt) :
    (ℤ × ℤ) × RSt :=
  let nN : ℤ := max 0 (roundJS Nv)
  let lb : ℚ := max 0 kBack
  let lf : ℚ := max 0 kFwd
  let ls : ℚ := lb + lf
  let dtNum : ℚ := dtNorm DTv
  let pTot : ℚ := if 0 < ls then 1 - F.expNeg (ls * dtNum) else 0
  let r1 := sampleBinomial F rng (nN : ℚ) pTot σ
  let nReact := r1.1
  let fracBack : ℚ := if 0 < ls then max 0 (min 1 (lb / ls)) else 0
  let r2 := sampleBinomial F rng (nReact : ℚ) fracBack r1.2
  let toBack := r2.1
  let toFwd := nReact - toBack
  ((toBack, toFwd), r2.2)

/-- One tick of the aggregated kernel (`simulateTick`, the tau-leap version
of `src/lib/precise-simulation.ts`): clamp the species to be non-negative,
run the E, ES and EP blocks in order with the snapshot populations
`NEL`, `NES`, `NEP`, clamp again and advance the time by the raw `DT`. -/
def simulateTick (F : Flt) (rng : Rng) (st : SimState) (ps : SimParams) (σ : RSt) :
    SimState × RSt :=
  let DT : ℚ := ps.dt.getD 1
  let EL0 := max st.EL 0
  let ES0 := max st.ES 0
  let EP0 := max st.EP 0
  let S0 := max st.S 0
  let P0 := max st.P 0
  let rE := eBlockCounts F rng ps.k1 ps.kMinus3 ps.NEL S0 P0 DT σ
  let nEs := rE.1.1
  let nEp := rE.1.2.1
  let EL1 := EL0 - ((nEs : ℚ) + (nEp : ℚ))
  let ES1 := ES0 + (nEs : ℚ)
  let EP1 := EP0 + (nEp : ℚ)
  let S1 := S0 - (nEs : ℚ)
  let P1 := P0 - (nEp : ℚ)
  let rES := convBlockCounts F rng ps.kMinus1 ps.k2 ps.NES DT rE.2
  let toEL := rES.1.1
  let toEP := rES.1.2
  let EL2 := EL1 + (toEL : ℚ)
  let ES2 := ES1 - ((toEL : ℚ) + (toEP : ℚ))
  let S2 := S1 + (toEL : ℚ)
  let EP2 := EP1 + (toEP : ℚ)
  let rEP := convBlockCounts F rng ps.kMinus2 ps.k3 ps.NEP DT rES.2
  let toES := rEP.1.1
  let toE := rEP.1.2
  let ES3 := ES2 + (toES : ℚ)
  let EP3 := EP2 - ((toES : ℚ) + (toE : ℚ))
  let EL3 := EL2 + (toE : ℚ)
  let P2 := P1 + (toE : ℚ)
  (⟨max EL3 0, max ES3 0, max EP3 0, max S2 0, max P2 0, st.TIEMPO + DT⟩, rEP.2)

/-- The pre-step normalization as the specification words it: "round all
five species counts to the nearest integer and clamp to >= 0; this
rounded/clamped snapshot is the pre-step state used for all three blocks".
Identical to `simulateTick` except that the five species are rounded
before clamping; used to compare the code against this reading. -/
def simulateTickSpecRounded (F : Flt) (rng : Rng) (st : SimState) (ps : SimParams)
    (σ : RSt) : SimState × RSt :=
  simulateTick F rng
    ⟨((max 0 (roundJS st.EL) : ℤ) : ℚ), ((max 0 (roundJS st.ES) : ℤ) : ℚ),
      ((max 0 (roundJS st.EP) : ℤ) : ℚ), ((max 0 (roundJS st.S) : ℤ) : ℚ),
      ((max 0 (roundJS st.P) : ℤ) : ℚ), st.TIEMPO⟩ ps σ

/-- Modelled from the spec: the per-step snapshot capture of the drivers.
"At the start of each step, the current E, ES, EP counts are captured and
used as the fixed population sizes for that step's binomial draws"; the
repository's TypeScript driver likewise rebuilds its params every step
with `NEL: Math.round(currentState.E)` (and ES, EP alike).  The rate
constants, the unused NS/NP fields and dt come unchanged from the
caller. -/
def stepParams (ps : SimParams) (st : SimState) : SimParams :=
  ⟨((roundJS st.EL : ℤ) : ℚ), ((roundJS st.ES : ℤ) : ℚ), ((roundJS st.EP : ℤ) : ℚ),
    ps.NS, ps.NP, ps.k1, ps.kMinus3, ps.kMinus1, ps.k2, ps.kMinus2, ps.k3, ps.dt⟩

/-- Modelled from the spec: the Rust step driver `simulate_steps_final` of
`wasm/src/lib.rs` is not among the sources (only its TypeScript wrapper
`wasmSimulateStepsFinal` and the design document are).  Per the spec it
"applies the step kernel `steps` times sequentially, discarding
intermediates, returns only the last state", capturing the snapshot
populations from the current state at the start of every step; the
wrapper clamps the step count to a non-negative integer, modelled here by
taking it as a natural number. -/
def runToFinal (F : Flt) (rng : Rng) (ps : SimParams) : SimState → RSt → ℕ → SimState × RSt
  | st, σ, 0 => (st, σ)
  | st, σ, n + 1 =>
    let r := simulateTick F rng st (stepParams ps st) σ
    runToFinal F rng ps r.1 r.2 n

/-- Modelled from the spec: the Rust step driver `simulate_steps_series` of
`wasm/src/lib.rs` is not among the sources.  Per the spec it "applies the
step kernel `steps` times, recording every resulting state (not the
initial one) in order", with bit-identical per-step logic to the final
driver, including the same per-step snapshot capture. -/
def runSeries (F : Flt) (rng : Rng) (ps : SimParams) : SimState → RSt → ℕ → List SimState × RSt
  | _, σ, 0 => ([], σ)
  | st, σ, n + 1 =>
    let r := simulateTick F rng st (stepParams ps st) σ
    let rest := runSeries F rng ps r.1 r.2 n
    (r.1 :: rest.1, rest.2)

/-- A concrete float model for closed instances: exp (-x) is taken as 0
for x at least 745 (the f64 exponential underflows to exactly 0 there)
and 1 below (the instances below never evaluate it in that range). -/
def F0 : Flt := ⟨fun x => if 745 ≤ x then 0 else 1, fun _ => 0⟩

/-- A concrete random oracle for closed instances. -/
def rng0 : Rng := ⟨fun _ => 1 / 2, fun _ => 0, 100⟩

/-- The initial cursor. -/
def rs0 : RSt := ⟨0, 0⟩

/-! ### Helper lemmas about the sampling primitive -/

theorem bernoulliCount_le (rng : Rng) (pp : ℚ) (ui : ℕ) :
    ∀ m : ℕ, bernoulliCount rng pp ui m ≤ m := by
  intro m
  induction m with
  | zero => simp [bernoulliCount]
  | succ k ih =>
    unfold bernoulliCount
    split <;> omega

theorem floor_half : ⌊(1 / 2 : ℚ)⌋ = 0 := by
  rw [Int.floor_eq_zero_iff]
  constructor <;> norm_num

theorem roundJS_intCast (z : ℤ) : roundJS ((z : ℤ) : ℚ) = z := by
  unfold roundJS
  rw [Int.floor_int_add, floor_half, add_zero]

theorem roundJS_natCast (m : ℕ) : roundJS ((m : ℕ) : ℚ) = m := by
  have := roundJS_intCast (m : ℤ)
  simpa using this

theorem roundJS_nonneg {x : ℚ} (hx : 0 ≤ x) : 0 ≤ roundJS x := by
  unfold roundJS
  have : (0 : ℚ) ≤ x + 1 / 2 := by linarith
  exact Int.floor_nonneg.mpr this

/-- Every branch of the core sampler yields a value in [0, nn]. -/
theorem sampleBinomialCore_bounds (F : Flt) (rng : Rng) (nn : ℤ) (pp0 : ℚ) (σ : RSt)
    (hnn : 0 ≤ nn) :
    0 ≤ (sampleBinomialCore F rng nn pp0 σ).1 ∧
      (sampleBinomialCore F rng nn pp0 σ).1 ≤ nn := by
  have key : ∀ v : ℤ, 0 ≤ v → v ≤ nn →
      0 ≤ (if 1 / 2 < pp0 then nn - v else v) ∧
        (if 1 / 2 < pp0 then nn - v else v) ≤ nn := by
    intro v h1 h2
    split <;> omega
  unfold sampleBinomialCore
  split
  · simpa using hnn
  split
  · simp [hnn]
  dsimp only
  by_cases h50 : nn < 50
  · simp only [if_pos h50]
    refine key _ (by positivity) ?_
    have h1 := bernoulliCount_le rng (if 1 / 2 < pp0 then 1 - pp0 else pp0) σ.ui nn.toNat
    have h2 : ((nn.toNat : ℕ) : ℤ) = nn := Int.toNat_of_nonneg hnn
    omega
  · simp only [if_neg h50]
    by_cases h30 : (nn : ℚ) * (if 1 / 2 < pp0 then 1 - pp0 else pp0) < 30
    · simp only [if_pos h30]
      exact key _ (le_min hnn (Int.natCast_nonneg _)) (min_le_left _ _)
    · simp only [if_neg h30]
      exact key _ (le_min hnn (le_max_left 0 _)) (min_le_left _ _)

theorem sampleBinomial_bounds (F : Flt) (rng : Rng) (n p : ℚ) (σ : RSt) :
    0 ≤ (sampleBinomial F rng n p σ).1 ∧
      (sampleBinomial F rng n p σ).1 ≤ max 0 ⌊n⌋ := by
  unfold sampleBinomial
  exact sampleBinomialCore_bounds F rng (max 0 ⌊n⌋) (max 0 (min 1 p)) σ (le_max_left 0 _)

theorem sampleBinomial_p_nonpos (F : Flt) (rng : Rng) (n p : ℚ) (σ : RSt) (hp : p ≤ 0) :
    sampleBinomial F rng n p σ = (0, σ) := by
  unfold sampleBinomial sampleBinomialCore
  have h : max 0 (min 1 p) ≤ 0 := by
    have : min 1 p ≤ 0 := le_trans (min_le_right 1 p) hp
    simp [this]
  rw [if_pos (Or.inr h)]

theorem sampleBinomial_p_ge_one (F : Flt) (rng : Rng) (n p : ℚ) (σ : RSt) (hp : 1 ≤ p) :
    sampleBinomial F rng n p σ = (max 0 ⌊n⌋, σ) := by
  unfold sampleBinomial sampleBinomialCore
  have hmin : min 1 p = 1 := min_eq_left hp
  have h1 : max 0 (min 1 p) = 1 := by rw [hmin]; norm_num
  rw [h1]
  by_cases hz : max 0 ⌊n⌋ ≤ 0
  · have : max 0 ⌊n⌋ = 0 := le_antisymm hz (le_max_left 0 _)
    rw [if_pos (Or.inl hz), this]
  · rw [if_neg (by push_neg; exact ⟨lt_of_not_le hz, by norm_num⟩ : ¬(max 0 ⌊n⌋ ≤ 0 ∨ (1:ℚ) ≤ 0))]
    rw [if_pos (le_refl (1 : ℚ))]

theorem sampleBinomial_n_nonpos (F : Flt) (rng : Rng) (n p : ℚ) (σ : RSt) (hn : n ≤ 0) :
    sampleBinomial F rng n p σ = (0, σ) := by
  unfold sampleBinomial sampleBinomialCore
  have h : max 0 ⌊n⌋ ≤ 0 := by
    have : ⌊n⌋ ≤ 0 := by
      have := Int.floor_le_floor hn
      simpa using this
    simp [this]
  rw [if_pos (Or.inl h)]

theorem sampleBinomial_le_intCast (F : Flt) (rng : Rng) (m : ℤ) (p : ℚ) (σ : RSt)
    (hm : 0 ≤ m) :
    0 ≤ (sampleBinomial F rng (m : ℚ) p σ).1 ∧ (sampleBinomial F rng (m : ℚ) p σ).1 ≤ m := by
  have h := sampleBinomial_bounds F rng (m : ℚ) p σ
  rwa [Int.floor_intCast, max_eq_right hm] at h

/-- The capping-with-reassignment arithmetic, in isolation: given raw
demands that split a reaction count, the final channel counts stay within
the available resources and their sum within the count. -/
theorem capReassign_le (nEsRaw nEpRaw sAvail pAvail nReact : ℤ)
    (h1 : 0 ≤ nEsRaw) (h2 : nEsRaw ≤ nReact) (h3 : nEpRaw = nReact - nEsRaw)
    (hs : 0 ≤ sAvail) (hp : 0 ≤ pAvail) :
    0 ≤ (capReassign nEsRaw nEpRaw sAvail pAvail).1 ∧
      (capReassign nEsRaw nEpRaw sAvail pAvail).1 ≤ sAvail ∧
      0 ≤ (capReassign nEsRaw nEpRaw sAvail pAvail).2 ∧
      (capReassign nEsRaw nEpRaw sAvail pAvail).2 ≤ pAvail ∧
      (capReassign nEsRaw nEpRaw sAvail pAvail).1 +
        (capReassign nEsRaw nEpRaw sAvail pAvail).2 ≤ nReact := by
  unfold capReassign
  dsimp only
  split_ifs <;> refine ⟨by omega, by omega, by omega, by omega, by omega⟩

/-- Decomposition of the E block: the two sampled integers are bounded by
the snapshot population and by each other, and the block's result is the
cap-and-reassign of the sampled split. -/
theorem eBlockCounts_spec (F : Flt) (rng : Rng) (k1v km3 NELv Sv Pv DTv : ℚ) (σ : RSt) :
    ∃ (nReact nEsRaw : ℤ) (σ2 : RSt),
      0 ≤ nReact ∧ nReact ≤ max 0 (roundJS NELv) ∧ 0 ≤ nEsRaw ∧ nEsRaw ≤ nReact ∧
      eBlockCounts F rng k1v km3 NELv Sv Pv DTv σ =
        (((capReassign nEsRaw (nReact - nEsRaw) (max 0 ⌊Sv⌋) (max 0 ⌊Pv⌋)).1,
          (capReassign nEsRaw (nReact - nEsRaw) (max 0 ⌊Sv⌋) (max 0 ⌊Pv⌋)).2,
          nReact), σ2) := by
  unfold eBlockCounts
  dsimp only
  refine ⟨_, _, _, ?_, ?_, ?_, ?_, rfl⟩
  · exact (sampleBinomial_le_intCast F rng _ _ _ (le_max_left 0 _)).1
  · exact (sampleBinomial_le_intCast F rng _ _ _ (le_max_left 0 _)).2
  · exact (sampleBinomial_le_intCast F rng _ _ _
      (sampleBinomial_le_intCast F rng _ _ _ (le_max_left 0 _)).1).1
  · exact (sampleBinomial_le_intCast F rng _ _ _
      (sampleBinomial_le_intCast F rng _ _ _ (le_max_left 0 _)).1).2

/-- Decomposition of the ES and EP blocks: the reacting count is bounded
by the snapshot population and the back split by the reacting count. -/
theorem convBlockCounts_spec (F : Flt) (rng : Rng) (kBack kFwd Nv DTv : ℚ) (σ : RSt) :
    ∃ (nReact toBack : ℤ) (σ2 : RSt),
      0 ≤ nReact ∧ nReact ≤ max 0 (roundJS Nv) ∧ 0 ≤ toBack ∧ toBack ≤ nReact ∧
      convBlockCounts F rng kBack kFwd Nv DTv σ = ((toBack, nReact - toBack), σ2) := by
  unfold convBlockCounts
  dsimp only
  refine ⟨_, _, _, ?_, ?_, ?_, ?_, rfl⟩
  · exact (sampleBinomial_le_intCast F rng _ _ _ (le_max_left 0 _)).1
  · exact (sampleBinomial_le_intCast F rng _ _ _ (le_max_left 0 _)).2
  · exact (sampleBinomial_le_intCast F rng _ _ _
      (sampleBinomial_le_intCast F rng _ _ _ (le_max_left 0 _)).1).1
  · exact (sampleBinomial_le_intCast F rng _ _ _
      (sampleBinomial_le_intCast F rng _ _ _ (le_max_left 0 _)).1).2

/-- Decomposition of one tick: there are seven integers (the per-block
reaction counts), each bounded by its snapshot population or resource,
such that the new state is the clamped linear update by those counts and
the time advances by the raw `dt`. -/
theorem simulateTick_spec (F : Flt) (rng : Rng) (st : SimState) (ps : SimParams) (σ : RSt) :
    ∃ (nEs nEp nReact toEL toEP toES toE : ℤ) (σ4 : RSt),
      0 ≤ nEs ∧ nEs ≤ max 0 ⌊max st.S 0⌋ ∧
      0 ≤ nEp ∧ nEp ≤ max 0 ⌊max st.P 0⌋ ∧
      nEs + nEp ≤ nReact ∧ 0 ≤ nReact ∧ nReact ≤ max 0 (roundJS ps.NEL) ∧
      0 ≤ toEL ∧ 0 ≤ toEP ∧ toEL + toEP ≤ max 0 (roundJS ps.NES) ∧
      0 ≤ toES ∧ 0 ≤ toE ∧ toES + toE ≤ max 0 (roundJS ps.NEP) ∧
      simulateTick F rng st ps σ =
        (⟨max (max st.EL 0 - ((nEs : ℚ) + (nEp : ℚ)) + (toEL : ℚ) + (toE : ℚ)) 0,
          max (max st.ES 0 + (nEs : ℚ) - ((toEL : ℚ) + (toEP : ℚ)) + (toES : ℚ)) 0,
          max (max st.EP 0 + (nEp : ℚ) + (toEP : ℚ) - ((toES : ℚ) + (toE : ℚ))) 0,
          max (max st.S 0 - (nEs : ℚ) + (toEL : ℚ)) 0,
          max (max st.P 0 - (nEp : ℚ) + (toE : ℚ)) 0,
          st.TIEMPO + ps.dt.getD 1⟩, σ4) := by
  obtain ⟨nR, aRaw, σ2, hn0, hn1, ha0, ha1, heqE⟩ :=
    eBlockCounts_spec F rng ps.k1 ps.kMinus3 ps.NEL (max st.S 0) (max st.P 0) (ps.dt.getD 1) σ
  obtain ⟨mR, tB, σ3, hm0, hm1, hb0, hb1, heqES⟩ :=
    convBlockCounts_spec F rng ps.kMinus1 ps.k2 ps.NES (ps.dt.getD 1) σ2
  obtain ⟨pR, uB, σ4, hp0, hp1, hc0, hc1, heqEP⟩ :=
    convBlockCounts_spec F rng ps.kMinus2 ps.k3 ps.NEP (ps.dt.getD 1) σ3
  obtain ⟨hcr0, hcr1, hcr2, hcr3, hcr4⟩ :=
    capReassign_le aRaw (nR - aRaw) (max 0 ⌊max st.S 0⌋) (max 0 ⌊max st.P 0⌋) nR
      ha0 ha1 rfl (le_max_left _ _) (le_max_left _ _)
  refine ⟨(capReassign aRaw (nR - aRaw) (max 0 ⌊max st.S 0⌋) (max 0 ⌊max st.P 0⌋)).1,
    (capReassign aRaw (nR - aRaw) (max 0 ⌊max st.S 0⌋) (max 0 ⌊max st.P 0⌋)).2,
    nR, tB, mR - tB, uB, pR - uB, σ4,
    hcr0, hcr1, hcr2, hcr3, hcr4, hn0, hn1,
    hb0, by omega, by omega, hc0, by omega, by omega, ?_⟩
  unfold simulateTick
  dsimp only
  rw [heqE]
  dsimp only
  rw [heqES]
  dsimp only
  rw [heqEP]

/-! ### Claim theorems -/

/-- C2: for every input state (including states with negative components),
every choice of rate constants and dt, and every outcome of the random
draws, all five species counts returned by one invocation of
`simulateTick` are non-negative. -/
theorem simulateTick_nonneg (F : Flt) (rng : Rng) (st : SimState) (ps : SimParams)
    (σ : RSt) :
    0 ≤ (simulateTick F rng st ps σ).1.EL ∧ 0 ≤ (simulateTick F rng st ps σ).1.ES ∧
      0 ≤ (simulateTick F rng st ps σ).1.EP ∧ 0 ≤ (simulateTick F rng st ps σ).1.S ∧
      0 ≤ (simulateTick F rng st ps σ).1.P := by
  obtain ⟨nEs, nEp, nR, tEL, tEP, tES, tE, σ4, -, -, -, -, -, -, -, -, -, -, -, -, -, heq⟩ :=
    simulateTick_spec F rng st ps σ
  rw [heq]
  exact ⟨le_max_right _ _, le_max_right _ _, le_max_right _ _,
    le_max_right _ _, le_max_right _ _⟩

/-- C1: for every valid input state (non-negative integer species counts
with the snapshot populations NEL, NES, NEP matching the pre-step E, ES,
EP counts) and any rate constants and dt, a single `simulateTick`
conserves both totals exactly: E+ES+EP and S+P+ES+EP are unchanged. -/
theorem simulateTick_mass_conservation (F : Flt) (rng : Rng) (σ : RSt)
    (st : SimState) (ps : SimParams) (a b c d e : ℕ)
    (hEL : st.EL = a) (hES : st.ES = b) (hEP : st.EP = c) (hS : st.S = d) (hP : st.P = e)
    (hNEL : ps.NEL = st.EL) (hNES : ps.NES = st.ES) (hNEP : ps.NEP = st.EP) :
    (simulateTick F rng st ps σ).1.EL + (simulateTick F rng st ps σ).1.ES +
        (simulateTick F rng st ps σ).1.EP = st.EL + st.ES + st.EP ∧
      (simulateTick F rng st ps σ).1.S + (simulateTick F rng st ps σ).1.P +
        (simulateTick F rng st ps σ).1.ES + (simulateTick F rng st ps σ).1.EP =
        st.S + st.P + st.ES + st.EP := by
  obtain ⟨nEs, nEp, nR, tEL, tEP, tES, tE, σ4,
    h1, h2, h3, h4, h5, h6, h7, h8, h9, h10, h11, h12, h13, heq⟩ :=
    simulateTick_spec F rng st ps σ
  have hEL0 : max st.EL 0 = (a : ℚ) := by rw [hEL]; exact max_eq_left (by positivity)
  have hES0 : max st.ES 0 = (b : ℚ) := by rw [hES]; exact max_eq_left (by positivity)
  have hEP0 : max st.EP 0 = (c : ℚ) := by rw [hEP]; exact max_eq_left (by positivity)
  have hS0 : max st.S 0 = (d : ℚ) := by rw [hS]; exact max_eq_left (by positivity)
  have hP0 : max st.P 0 = (e : ℚ) := by rw [hP]; exact max_eq_left (by positivity)
  have hnR : nR ≤ (a : ℤ) := by
    have hr : roundJS ps.NEL = (a : ℤ) := by rw [hNEL, hEL]; exact roundJS_natCast a
    rw [hr] at h7
    simpa using h7
  have hmR : tEL + tEP ≤ (b : ℤ) := by
    have hr : roundJS ps.NES = (b : ℤ) := by rw [hNES, hES]; exact roundJS_natCast b
    rw [hr] at h10
    simpa using h10
  have hpR : tES + tE ≤ (c : ℤ) := by
    have hr : roundJS ps.NEP = (c : ℤ) := by rw [hNEP, hEP]; exact roundJS_natCast c
    rw [hr] at h13
    simpa using h13
  have hsA : nEs ≤ (d : ℤ) := by
    rw [hS0, Int.floor_natCast] at h2
    simpa using h2
  have hpA : nEp ≤ (e : ℤ) := by
    rw [hP0, Int.floor_natCast] at h4
    simpa using h4
  have q1 : (0 : ℚ) ≤ nEs := by exact_mod_cast h1
  have q2 : (nEs : ℚ) ≤ d := by exact_mod_cast hsA
  have q3 : (0 : ℚ) ≤ nEp := by exact_mod_cast h3
  have q4 : (nEp : ℚ) ≤ e := by exact_mod_cast hpA
  have q5 : (nEs : ℚ) + nEp ≤ nR := by exact_mod_cast h5
  have q6 : (nR : ℚ) ≤ a := by exact_mod_cast hnR
  have q7 : (0 : ℚ) ≤ tEL := by exact_mod_cast h8
  have q8 : (0 : ℚ) ≤ tEP := by exact_mod_cast h9
  have q9 : (tEL : ℚ) + tEP ≤ b := by exact_mod_cast hmR
  have q10 : (0 : ℚ) ≤ tES := by exact_mod_cast h11
  have q11 : (0 : ℚ) ≤ tE := by exact_mod_cast h12
  have q12 : (tES : ℚ) + tE ≤ c := by exact_mod_cast hpR
  rw [heq]
  dsimp only
  rw [hEL0, hES0, hEP0, hS0, hP0]
  rw [max_eq_left (by linarith : (0:ℚ) ≤ (a : ℚ) - ((nEs : ℚ) + (nEp : ℚ)) + tEL + tE),
    max_eq_left (by linarith : (0:ℚ) ≤ (b : ℚ) + (nEs : ℚ) - ((tEL : ℚ) + (tEP : ℚ)) + tES),
    max_eq_left (by linarith : (0:ℚ) ≤ (c : ℚ) + (nEp : ℚ) + (tEP : ℚ) - ((tES : ℚ) + (tE : ℚ))),
    max_eq_left (by linarith : (0:ℚ) ≤ (d : ℚ) - (nEs : ℚ) + tEL),
    max_eq_left (by linarith : (0:ℚ) ≤ (e : ℚ) - (nEp : ℚ) + tE)]
  rw [hEL, hES, hEP, hS, hP]
  constructor <;> ring

/-- Closed instance of C1 at a concrete valid state, rate set and oracle. -/
theorem simulateTick_mass_conservation_wit :
    ((⟨2, 1, 1, 3, 0, 0⟩ : SimState).EL = ((2 : ℕ) : ℚ) ∧
      (⟨2, 1, 1, 3, 0, 0⟩ : SimState).ES = ((1 : ℕ) : ℚ) ∧
      (⟨2, 1, 1, 3, 0, 0⟩ : SimState).EP = ((1 : ℕ) : ℚ) ∧
      (⟨2, 1, 1, 3, 0, 0⟩ : SimState).S = ((3 : ℕ) : ℚ) ∧
      (⟨2, 1, 1, 3, 0, 0⟩ : SimState).P = ((0 : ℕ) : ℚ) ∧
      (⟨2, 1, 1, 0, 0, 1, 1, 1, 1, 1, 1, none⟩ : SimParams).NEL =
        (⟨2, 1, 1, 3, 0, 0⟩ : SimState).EL ∧
      (⟨2, 1, 1, 0, 0, 1, 1, 1, 1, 1, 1, none⟩ : SimParams).NES =
        (⟨2, 1, 1, 3, 0, 0⟩ : SimState).ES ∧
      (⟨2, 1, 1, 0, 0, 1, 1, 1, 1, 1, 1, none⟩ : SimParams).NEP =
        (⟨2, 1, 1, 3, 0, 0⟩ : SimState).EP) ∧
    ((simulateTick F0 rng0 ⟨2, 1, 1, 3, 0, 0⟩ ⟨2, 1, 1, 0, 0, 1, 1, 1, 1, 1, 1, none⟩ rs0).1.EL +
        (simulateTick F0 rng0 ⟨2, 1, 1, 3, 0, 0⟩ ⟨2, 1, 1, 0, 0, 1, 1, 1, 1, 1, 1, none⟩ rs0).1.ES +
        (simulateTick F0 rng0 ⟨2, 1, 1, 3, 0, 0⟩ ⟨2, 1, 1, 0, 0, 1, 1, 1, 1, 1, 1, none⟩ rs0).1.EP =
        (⟨2, 1, 1, 3, 0, 0⟩ : SimState).EL + (⟨2, 1, 1, 3, 0, 0⟩ : SimState).ES +
          (⟨2, 1, 1, 3, 0, 0⟩ : SimState).EP ∧
      (simulateTick F0 rng0 ⟨2, 1, 1, 3, 0, 0⟩ ⟨2, 1, 1, 0, 0, 1, 1, 1, 1, 1, 1, none⟩ rs0).1.S +
        (simulateTick F0 rng0 ⟨2, 1, 1, 3, 0, 0⟩ ⟨2, 1, 1, 0, 0, 1, 1, 1, 1, 1, 1, none⟩ rs0).1.P +
        (simulateTick F0 rng0 ⟨2, 1, 1, 3, 0, 0⟩ ⟨2, 1, 1, 0, 0, 1, 1, 1, 1, 1, 1, none⟩ rs0).1.ES +
        (simulateTick F0 rng0 ⟨2, 1, 1, 3, 0, 0⟩ ⟨2, 1, 1, 0, 0, 1, 1, 1, 1, 1, 1, none⟩ rs0).1.EP =
        (⟨2, 1, 1, 3, 0, 0⟩ : SimState).S + (⟨2, 1, 1, 3, 0, 0⟩ : SimState).P +
          (⟨2, 1, 1, 3, 0, 0⟩ : SimState).ES + (⟨2, 1, 1, 3, 0, 0⟩ : SimState).EP) :=
  ⟨⟨by norm_num, by norm_num, by norm_num, by norm_num, by norm_num,
      by norm_num, by norm_num, by norm_num⟩,
    simulateTick_mass_conservation F0 rng0 rs0 ⟨2, 1, 1, 3, 0, 0⟩
      ⟨2, 1, 1, 0, 0, 1, 1, 1, 1, 1, 1, none⟩ 2 1 1 3 0
      (by norm_num) (by norm_num) (by norm_num) (by norm_num) (by norm_num)
      (by norm_num) (by norm_num) (by norm_num)⟩

/-- C10: in the E block, even after overflow reassignment the totals stay
bounded by the draw: nEs is at most the available S, nEp at most the
available P, their sum at most the sampled reacting count, which is at
most the rounded snapshot population round(NEL); hence one step never
removes more free enzyme than the sampled number of reacting molecules,
nor more than the snapshot E population. -/
theorem eBlock_resource_bounds (F : Flt) (rng : Rng) (k1v km3 NELv Sv Pv DTv : ℚ)
    (σ : RSt) (hNEL : 0 ≤ NELv) :
    (eBlockCounts F rng k1v km3 NELv Sv Pv DTv σ).1.1 ≤ max 0 ⌊Sv⌋ ∧
      (eBlockCounts F rng k1v km3 NELv Sv Pv DTv σ).1.2.1 ≤ max 0 ⌊Pv⌋ ∧
      (eBlockCounts F rng k1v km3 NELv Sv Pv DTv σ).1.1 +
          (eBlockCounts F rng k1v km3 NELv Sv Pv DTv σ).1.2.1 ≤
        (eBlockCounts F rng k1v km3 NELv Sv Pv DTv σ).1.2.2 ∧
      (eBlockCounts F rng k1v km3 NELv Sv Pv DTv σ).1.2.2 ≤ roundJS NELv ∧
      (eBlockCounts F rng k1v km3 NELv Sv Pv DTv σ).1.1 +
          (eBlockCounts F rng k1v km3 NELv Sv Pv DTv σ).1.2.1 ≤ roundJS NELv := by
  obtain ⟨nR, aRaw, σ2, hn0, hn1, ha0, ha1, heq⟩ :=
    eBlockCounts_spec F rng k1v km3 NELv Sv Pv DTv σ
  obtain ⟨g0, g1, g2, g3, g4⟩ :=
    capReassign_le aRaw (nR - aRaw) (max 0 ⌊Sv⌋) (max 0 ⌊Pv⌋) nR
      ha0 ha1 rfl (le_max_left _ _) (le_max_left _ _)
  have hnr : nR ≤ roundJS NELv := by
    rw [max_eq_right (roundJS_nonneg hNEL)] at hn1
    exact hn1
  rw [heq]
  exact ⟨g1, g3, g4, hnr, le_trans g4 hnr⟩

/-- Closed instance of C10 at a concrete rate set and oracle. -/
theorem eBlock_resource_bounds_wit :
    (0 : ℚ) ≤ 3 ∧
    ((eBlockCounts F0 rng0 1 1 3 2 0 1 rs0).1.1 ≤ max 0 ⌊(2 : ℚ)⌋ ∧
      (eBlockCounts F0 rng0 1 1 3 2 0 1 rs0).1.2.1 ≤ max 0 ⌊(0 : ℚ)⌋ ∧
      (eBlockCounts F0 rng0 1 1 3 2 0 1 rs0).1.1 +
          (eBlockCounts F0 rng0 1 1 3 2 0 1 rs0).1.2.1 ≤
        (eBlockCounts F0 rng0 1 1 3 2 0 1 rs0).1.2.2 ∧
      (eBlockCounts F0 rng0 1 1 3 2 0 1 rs0).1.2.2 ≤ roundJS 3 ∧
      (eBlockCounts F0 rng0 1 1 3 2 0 1 rs0).1.1 +
          (eBlockCounts F0 rng0 1 1 3 2 0 1 rs0).1.2.1 ≤ roundJS 3) :=
  ⟨by norm_num, eBlock_resource_bounds F0 rng0 1 1 3 2 0 1 rs0 (by norm_num)⟩

/-- C3: for every non-negative integer n, every p, and every outcome of
the random draws, sampleBinomial(n, p) returns an integer in [0, n];
it is 0 whenever n = 0 or p is non-positive, and n whenever p is at
least 1, across all three internal strategies and the symmetry path. -/
theorem sampleBinomial_contract (F : Flt) (rng : Rng) (m : ℕ) (p : ℚ) (σ : RSt) :
    (0 ≤ (sampleBinomial F rng (m : ℚ) p σ).1 ∧
        (sampleBinomial F rng (m : ℚ) p σ).1 ≤ (m : ℤ)) ∧
      (m = 0 → (sampleBinomial F rng (m : ℚ) p σ).1 = 0) ∧
      (p ≤ 0 → (sampleBinomial F rng (m : ℚ) p σ).1 = 0) ∧
      (1 ≤ p → (sampleBinomial F rng (m : ℚ) p σ).1 = (m : ℤ)) := by
  have hb := sampleBinomial_bounds F rng (m : ℚ) p σ
  rw [Int.floor_natCast, max_eq_right (Int.natCast_nonneg m)] at hb
  refine ⟨hb, ?_, ?_, ?_⟩
  · intro hm
    rw [sampleBinomial_n_nonpos F rng _ p σ (by rw [hm]; norm_num)]
  · intro hp
    rw [sampleBinomial_p_nonpos F rng _ p σ hp]
  · intro hp
    rw [sampleBinomial_p_ge_one F rng _ p σ hp]
    dsimp only
    rw [Int.floor_natCast, max_eq_right (Int.natCast_nonneg m)]

/-- Closed instance of C3 at n = 5, p = 2 (the p at least 1 branch). -/
theorem sampleBinomial_contract_wit :
    (1 : ℚ) ≤ 2 ∧ (sampleBinomial F0 rng0 ((5 : ℕ) : ℚ) 2 rs0).1 = ((5 : ℕ) : ℤ) :=
  ⟨by norm_num, (sampleBinomial_contract F0 rng0 5 2 rs0).2.2.2 (by norm_num)⟩

/-- C9: sampleBinomial is total on all rational inputs: it first replaces
n by max(0, floor(n)) and p by the clamp of p into [0, 1] (so applying it
to the normalized inputs yields the identical result), and for every
input and draw outcome the result lies in [0, max(0, floor(n))]. -/
theorem sampleBinomial_total (F : Flt) (rng : Rng) (n p : ℚ) (σ : RSt) :
    0 ≤ (sampleBinomial F rng n p σ).1 ∧
      (sampleBinomial F rng n p σ).1 ≤ max 0 ⌊n⌋ ∧
      sampleBinomial F rng n p σ =
        sampleBinomial F rng ((max 0 ⌊n⌋ : ℤ) : ℚ) (max 0 (min 1 p)) σ := by
  obtain ⟨h1, h2⟩ := sampleBinomial_bounds F rng n p σ
  refine ⟨h1, h2, ?_⟩
  unfold sampleBinomial
  rw [Int.floor_intCast, max_eq_right (le_max_left 0 ⌊n⌋)]
  have hpp : max 0 (min 1 (max 0 (min 1 p))) = max 0 (min 1 p) := by
    rw [min_max_distrib_left,
      show min (1 : ℚ) 0 = 0 from min_eq_right (by norm_num),
      ← min_assoc, min_self, ← max_assoc, max_self]
  rw [hpp]

theorem capReassign_zero (s p : ℤ) (hs : 0 ≤ s) (hp : 0 ≤ p) :
    capReassign 0 0 s p = (0, 0) := by
  unfold capReassign
  dsimp only
  rw [min_eq_left hs, min_eq_left hp]
  norm_num

theorem eBlockCounts_zero (F : Flt) (rng : Rng) (NELv Sv Pv DTv : ℚ) (σ : RSt) :
    eBlockCounts F rng 0 0 NELv Sv Pv DTv σ = ((0, 0, 0), σ) := by
  unfold eBlockCounts
  dsimp only
  simp only [zero_mul, max_self, add_zero, lt_self_iff_false, if_false]
  rw [sampleBinomial_p_nonpos F rng _ 0 σ (le_refl 0)]
  dsimp only
  rw [sampleBinomial_p_nonpos F rng _ 0 σ (le_refl 0)]
  dsimp only
  rw [show (0 : ℤ) - 0 = 0 from by norm_num]
  rw [capReassign_zero _ _ (le_max_left _ _) (le_max_left _ _)]

theorem convBlockCounts_zero (F : Flt) (rng : Rng) (Nv DTv : ℚ) (σ : RSt) :
    convBlockCounts F rng 0 0 Nv DTv σ = ((0, 0), σ) := by
  unfold convBlockCounts
  dsimp only
  simp only [max_self, add_zero, lt_self_iff_false, if_false]
  rw [sampleBinomial_p_nonpos F rng _ 0 σ (le_refl 0)]
  dsimp only
  rw [sampleBinomial_p_nonpos F rng _ 0 σ (le_refl 0)]
  dsimp only
  rw [show (0 : ℤ) - 0 = 0 from by norm_num]

/-- With all six rate constants 0, a tick reduces to the double clamp of
the species and a time advance by the raw dt, and consumes no draws. -/
theorem simulateTick_zero_aux (F : Flt) (rng : Rng) (σ : RSt) (st : SimState)
    (ps : SimParams)
    (hk1 : ps.k1 = 0) (hk2 : ps.kMinus3 = 0) (hk3 : ps.kMinus1 = 0) (hk4 : ps.k2 = 0)
    (hk5 : ps.kMinus2 = 0) (hk6 : ps.k3 = 0) :
    simulateTick F rng st ps σ =
      (⟨max (max st.EL 0) 0, max (max st.ES 0) 0, max (max st.EP 0) 0,
        max (max st.S 0) 0, max (max st.P 0) 0, st.TIEMPO + ps.dt.getD 1⟩, σ) := by
  unfold simulateTick
  dsimp only
  rw [hk1, hk2, hk3, hk4, hk5, hk6]
  rw [eBlockCounts_zero F rng ps.NEL (max st.S 0) (max st.P 0) (ps.dt.getD 1) σ]
  dsimp only
  rw [convBlockCounts_zero F rng ps.NES (ps.dt.getD 1) σ]
  dsimp only
  rw [convBlockCounts_zero F rng ps.NEP (ps.dt.getD 1) σ]
  dsimp only
  norm_num

/-- C8: for every non-negative input state, if all six rate constants are
0 then one `simulateTick` returns the five species counts unchanged, for
every outcome of the random source, and the elapsed time advanced by the
tick's dt (the supplied dt, or 1 when unspecified). -/
theorem simulateTick_zero_rates (F : Flt) (rng : Rng) (σ : RSt) (st : SimState)
    (ps : SimParams)
    (h1 : 0 ≤ st.EL) (h2 : 0 ≤ st.ES) (h3 : 0 ≤ st.EP) (h4 : 0 ≤ st.S) (h5 : 0 ≤ st.P)
    (hk1 : ps.k1 = 0) (hk2 : ps.kMinus3 = 0) (hk3 : ps.kMinus1 = 0) (hk4 : ps.k2 = 0)
    (hk5 : ps.kMinus2 = 0) (hk6 : ps.k3 = 0) :
    (simulateTick F rng st ps σ).1.EL = st.EL ∧
      (simulateTick F rng st ps σ).1.ES = st.ES ∧
      (simulateTick F rng st ps σ).1.EP = st.EP ∧
      (simulateTick F rng st ps σ).1.S = st.S ∧
      (simulateTick F rng st ps σ).1.P = st.P ∧
      (simulateTick F rng st ps σ).1.TIEMPO = st.TIEMPO + ps.dt.getD 1 := by
  rw [simulateTick_zero_aux F rng σ st ps hk1 hk2 hk3 hk4 hk5 hk6]
  refine ⟨?_, ?_, ?_, ?_, ?_, ?_⟩ <;>
    simp [max_eq_left h1, max_eq_left h2, max_eq_left h3, max_eq_left h4, max_eq_left h5]

/-- Closed instance of C8 at a concrete non-negative state with dt = 2. -/
theorem simulateTick_zero_rates_wit :
    ((0 : ℚ) ≤ 1 ∧ (0 : ℚ) ≤ 2 ∧ (0 : ℚ) ≤ 3 ∧ (0 : ℚ) ≤ 4 ∧ (0 : ℚ) ≤ 5) ∧
    ((simulateTick F0 rng0 ⟨1, 2, 3, 4, 5, 7⟩
        ⟨9, 9, 9, 0, 0, 0, 0, 0, 0, 0, 0, some 2⟩ rs0).1.EL = 1 ∧
      (simulateTick F0 rng0 ⟨1, 2, 3, 4, 5, 7⟩
        ⟨9, 9, 9, 0, 0, 0, 0, 0, 0, 0, 0, some 2⟩ rs0).1.ES = 2 ∧
      (simulateTick F0 rng0 ⟨1, 2, 3, 4, 5, 7⟩
        ⟨9, 9, 9, 0, 0, 0, 0, 0, 0, 0, 0, some 2⟩ rs0).1.EP = 3 ∧
      (simulateTick F0 rng0 ⟨1, 2, 3, 4, 5, 7⟩
        ⟨9, 9, 9, 0, 0, 0, 0, 0, 0, 0, 0, some 2⟩ rs0).1.S = 4 ∧
      (simulateTick F0 rng0 ⟨1, 2, 3, 4, 5, 7⟩
        ⟨9, 9, 9, 0, 0, 0, 0, 0, 0, 0, 0, some 2⟩ rs0).1.P = 5 ∧
      (simulateTick F0 rng0 ⟨1, 2, 3, 4, 5, 7⟩
        ⟨9, 9, 9, 0, 0, 0, 0, 0, 0, 0, 0, some 2⟩ rs0).1.TIEMPO = 7 + (2 : ℚ)) := by
  have h := simulateTick_zero_rates F0 rng0 rs0 ⟨1, 2, 3, 4, 5, 7⟩
    ⟨9, 9, 9, 0, 0, 0, 0, 0, 0, 0, 0, some 2⟩
    (by norm_num) (by norm_num) (by norm_num) (by norm_num) (by norm_num)
    rfl rfl rfl rfl rfl rfl
  exact ⟨⟨by norm_num, by norm_num, by norm_num, by norm_num, by norm_num⟩, h⟩

theorem eBlockCounts_dtNorm (F : Flt) (rng : Rng) (k1v km3 NELv Sv Pv DTv DTw : ℚ)
    (σ : RSt) (h : dtNorm DTv = dtNorm DTw) :
    eBlockCounts F rng k1v km3 NELv Sv Pv DTv σ =
      eBlockCounts F rng k1v km3 NELv Sv Pv DTw σ := by
  unfold eBlockCounts
  rw [h]

theorem convBlockCounts_dtNorm (F : Flt) (rng : Rng) (kBack kFwd Nv DTv DTw : ℚ)
    (σ : RSt) (h : dtNorm DTv = dtNorm DTw) :
    convBlockCounts F rng kBack kFwd Nv DTv σ =
      convBlockCounts F rng kBack kFwd Nv DTw σ := by
  unfold convBlockCounts
  rw [h]

/-- C5 (amended): if dt is supplied non-positive, every block computes its
reaction probability exactly as if dt were 1 (the species outputs and the
random cursor agree with the dt = 1 run), but the elapsed time advances
by the raw supplied dt, not by the normalized value. -/
theorem simulateTick_dt_normalization (F : Flt) (rng : Rng) (st : SimState)
    (ps : SimParams) (σ : RSt) (d : ℚ) (hd : ps.dt = some d) (hle : d ≤ 0) :
    (simulateTick F rng st ps σ).1.EL =
        (simulateTick F rng st ⟨ps.NEL, ps.NES, ps.NEP, ps.NS, ps.NP, ps.k1, ps.kMinus3,
          ps.kMinus1, ps.k2, ps.kMinus2, ps.k3, some 1⟩ σ).1.EL ∧
      (simulateTick F rng st ps σ).1.ES =
        (simulateTick F rng st ⟨ps.NEL, ps.NES, ps.NEP, ps.NS, ps.NP, ps.k1, ps.kMinus3,
          ps.kMinus1, ps.k2, ps.kMinus2, ps.k3, some 1⟩ σ).1.ES ∧
      (simulateTick F rng st ps σ).1.EP =
        (simulateTick F rng st ⟨ps.NEL, ps.NES, ps.NEP, ps.NS, ps.NP, ps.k1, ps.kMinus3,
          ps.kMinus1, ps.k2, ps.kMinus2, ps.k3, some 1⟩ σ).1.EP ∧
      (simulateTick F rng st ps σ).1.S =
        (simulateTick F rng st ⟨ps.NEL, ps.NES, ps.NEP, ps.NS, ps.NP, ps.k1, ps.kMinus3,
          ps.kMinus1, ps.k2, ps.kMinus2, ps.k3, some 1⟩ σ).1.S ∧
      (simulateTick F rng st ps σ).1.P =
        (simulateTick F rng st ⟨ps.NEL, ps.NES, ps.NEP, ps.NS, ps.NP, ps.k1, ps.kMinus3,
          ps.kMinus1, ps.k2, ps.kMinus2, ps.k3, some 1⟩ σ).1.P ∧
      (simulateTick F rng st ps σ).2 =
        (simulateTick F rng st ⟨ps.NEL, ps.NES, ps.NEP, ps.NS, ps.NP, ps.k1, ps.kMinus3,
          ps.kMinus1, ps.k2, ps.kMinus2, ps.k3, some 1⟩ σ).2 ∧
      (simulateTick F rng st ps σ).1.TIEMPO = st.TIEMPO + d := by
  have hn : dtNorm d = dtNorm 1 := by
    unfold dtNorm
    rw [if_neg (not_lt.mpr hle), if_pos one_pos]
  unfold simulateTick
  dsimp only
  rw [hd]
  dsimp only [Option.getD]
  rw [eBlockCounts_dtNorm F rng ps.k1 ps.kMinus3 ps.NEL (max st.S 0) (max st.P 0) d 1 σ hn]
  rw [convBlockCounts_dtNorm F rng ps.kMinus1 ps.k2 ps.NES d 1 _ hn]
  rw [convBlockCounts_dtNorm F rng ps.kMinus2 ps.k3 ps.NEP d 1 _ hn]
  exact ⟨rfl, rfl, rfl, rfl, rfl, rfl, rfl⟩

/-- Closed instance of C5's amended statement at dt = -1. -/
theorem simulateTick_dt_normalization_wit :
    ((⟨0, 0, 0, 0, 0, 0, 0, 0, 0, 0, 0, some (-1)⟩ : SimParams).dt = some (-1) ∧
      (-1 : ℚ) ≤ 0) ∧
    (simulateTick F0 rng0 ⟨1, 1, 1, 1, 1, 0⟩
      ⟨0, 0, 0, 0, 0, 0, 0, 0, 0, 0, 0, some (-1)⟩ rs0).1.TIEMPO = (0 : ℚ) + (-1) :=
  ⟨⟨rfl, by norm_num⟩,
    (simulateTick_dt_normalization F0 rng0 ⟨1, 1, 1, 1, 1, 0⟩
      ⟨0, 0, 0, 0, 0, 0, 0, 0, 0, 0, 0, some (-1)⟩ rs0 (-1) rfl
      (by norm_num)).2.2.2.2.2.2⟩

/-- C5 (counterexample): with dt supplied as -1, the returned elapsed time
is the input time plus the raw -1, not plus the normalized 1 that the
claim predicts (the per-block probabilities do use the normalized 1). -/
theorem simulateTick_raw_dt_cex :
    (simulateTick F0 rng0 ⟨0, 0, 0, 0, 0, 0⟩
        ⟨0, 0, 0, 0, 0, 0, 0, 0, 0, 0, 0, some (-1)⟩ rs0).1.TIEMPO = -1 ∧
      ¬ (simulateTick F0 rng0 ⟨0, 0, 0, 0, 0, 0⟩
        ⟨0, 0, 0, 0, 0, 0, 0, 0, 0, 0, 0, some (-1)⟩ rs0).1.TIEMPO = (0 : ℚ) + 1 := by
  rw [simulateTick_zero_aux F0 rng0 rs0 ⟨0, 0, 0, 0, 0, 0⟩
    ⟨0, 0, 0, 0, 0, 0, 0, 0, 0, 0, 0, some (-1)⟩ rfl rfl rfl rfl rfl rfl]
  norm_num

theorem roundJS_zero : roundJS 0 = 0 := by
  unfold roundJS
  rw [zero_add, floor_half]

/-- A conversion block with snapshot population 0 does nothing. -/
theorem convBlockCounts_popZero (F : Flt) (rng : Rng) (kBack kFwd DTv : ℚ) (σ : RSt) :
    convBlockCounts F rng kBack kFwd 0 DTv σ = ((0, 0), σ) := by
  unfold convBlockCounts
  dsimp only
  rw [roundJS_zero, max_self]
  rw [sampleBinomial_n_nonpos F rng _ _ σ (by norm_num)]
  dsimp only
  rw [sampleBinomial_n_nonpos F rng _ _ σ (by norm_num)]
  dsimp only
  rw [show (0 : ℤ) - 0 = 0 from by norm_num]

/-- The saturated E block: with k-3 = 0, a positive S hazard, and an
exponential that underflows to 0 (so pTot = 1), all round(NEL) enzymes
react and all of them demand the ES channel; the result is exactly the
cap-and-reassign of that saturated demand. -/
theorem eBlockCounts_sat (F : Flt) (rng : Rng) (k1v NELv Sv Pv DTv : ℚ) (σ : RSt)
    (m : ℤ) (hm : 0 ≤ m) (hNEL : roundJS NELv = m)
    (hl1 : 0 < k1v * max 0 Sv)
    (hexp : F.expNeg (k1v * max 0 Sv * dtNorm DTv) = 0) :
    eBlockCounts F rng k1v 0 NELv Sv Pv DTv σ =
      (((capReassign m 0 (max 0 ⌊Sv⌋) (max 0 ⌊Pv⌋)).1,
        (capReassign m 0 (max 0 ⌊Sv⌋) (max 0 ⌊Pv⌋)).2, m), σ) := by
  unfold eBlockCounts
  dsimp only
  rw [hNEL, max_eq_right hm]
  rw [max_eq_right hl1.le]
  rw [zero_mul, max_self, add_zero]
  rw [if_pos hl1, hexp, sub_zero]
  rw [sampleBinomial_p_ge_one F rng _ 1 σ (le_refl 1)]
  dsimp only
  rw [Int.floor_intCast, max_eq_right hm]
  rw [if_pos hl1, div_self (ne_of_gt hl1), min_self,
    max_eq_right (by norm_num : (0 : ℚ) ≤ 1)]
  rw [sampleBinomial_p_ge_one F rng _ 1 σ (le_refl 1)]
  dsimp only
  rw [Int.floor_intCast, max_eq_right hm, sub_self]

/-- C6 (amended): at the start of every step the kernel clamps the five
species counts to be non-negative, without rounding them, and this
clamped snapshot is the pre-step state used by all three blocks: the
kernel's result on any state equals its result on the clamped state. -/
theorem simulateTick_clamp_snapshot (F : Flt) (rng : Rng) (st : SimState)
    (ps : SimParams) (σ : RSt) :
    simulateTick F rng st ps σ =
      simulateTick F rng ⟨max st.EL 0, max st.ES 0, max st.EP 0, max st.S 0, max st.P 0,
        st.TIEMPO⟩ ps σ := by
  have hmm : ∀ x : ℚ, max (max x 0) 0 = max x 0 := fun x => by rw [max_assoc, max_self]
  unfold simulateTick
  dsimp only
  rw [hmm, hmm, hmm, hmm, hmm]

/-- C6 (counterexample): on the state with S = 5/2 and saturating k1, the
kernel leaves S fractional (output S = 1/2: the snapshot is clamped but
not rounded, and the cap floor(5/2) = 2 limits consumption), while the
spec's pre-rounded reading consumes round(5/2) = 3 and outputs S = 0. -/
theorem simulateTick_no_preround_cex :
    (simulateTick F0 rng0 ⟨3, 0, 0, 5 / 2, 0, 0⟩
        ⟨3, 0, 0, 0, 0, 1000, 0, 0, 0, 0, 0, none⟩ rs0).1.S = 1 / 2 ∧
      (simulateTickSpecRounded F0 rng0 ⟨3, 0, 0, 5 / 2, 0, 0⟩
        ⟨3, 0, 0, 0, 0, 1000, 0, 0, 0, 0, 0, none⟩ rs0).1.S = 0 := by
  have h52 : max ((5 : ℚ) / 2) 0 = 5 / 2 := max_eq_left (by norm_num)
  have h3 : roundJS (3 : ℚ) = 3 := by
    unfold roundJS
    rw [Int.floor_eq_iff]
    norm_num
  constructor
  · unfold simulateTick
    dsimp only [Option.getD]
    rw [eBlockCounts_sat F0 rng0 1000 3 (max (5 / 2 : ℚ) 0) (max (0 : ℚ) 0) 1 rs0 3
      (by norm_num) h3
      (by rw [h52, max_eq_right (by norm_num : (0 : ℚ) ≤ 5 / 2)]; norm_num)
      (by
        rw [h52, max_eq_right (by norm_num : (0 : ℚ) ≤ 5 / 2)]
        norm_num [dtNorm, F0])]
    dsimp only
    rw [convBlockCounts_popZero F0 rng0 0 0 1 rs0]
    dsimp only
    rw [h52]
    rw [show max (0 : ℚ) 0 = 0 from max_self 0]
    rw [show (⌊(5 : ℚ) / 2⌋ : ℤ) = 2 from by rw [Int.floor_eq_iff]; norm_num]
    rw [show (⌊(0 : ℚ)⌋ : ℤ) = 0 from by norm_num]
    rw [show capReassign 3 0 (max 0 2) (max 0 0) = (2, 0) from by decide]
    push_cast
    rw [show (5 : ℚ) / 2 - 2 + 0 = 1 / 2 from by norm_num]
    exact max_eq_left (by norm_num)
  · unfold simulateTickSpecRounded
    dsimp only
    have h52r : roundJS ((5 : ℚ) / 2) = 3 := by
      unfold roundJS
      rw [Int.floor_eq_iff]
      norm_num
    rw [h52r, h3, roundJS_zero]
    rw [show (0 ⊔ (3 : ℤ)) = 3 from by decide, show (0 ⊔ (0 : ℤ)) = 0 from by decide]
    push_cast
    unfold simulateTick
    dsimp only [Option.getD]
    rw [eBlockCounts_sat F0 rng0 1000 3 (max (3 : ℚ) 0) (max (0 : ℚ) 0) 1 rs0 3
      (by norm_num) h3
      (by rw [max_eq_left (by norm_num : (0 : ℚ) ≤ 3),
            max_eq_right (by norm_num : (0 : ℚ) ≤ 3)]
          norm_num)
      (by rw [max_eq_left (by norm_num : (0 : ℚ) ≤ 3),
            max_eq_right (by norm_num : (0 : ℚ) ≤ 3)]
          norm_num [dtNorm, F0])]
    dsimp only
    rw [convBlockCounts_popZero F0 rng0 0 0 1 rs0]
    dsimp only
    rw [max_eq_left (by norm_num : (0 : ℚ) ≤ 3)]
    rw [show max (0 : ℚ) 0 = 0 from max_self 0]
    rw [show (⌊(3 : ℚ)⌋ : ℤ) = 3 from by rw [Int.floor_eq_iff]; norm_num]
    rw [show (⌊(0 : ℚ)⌋ : ℤ) = 0 from by norm_num]
    rw [show capReassign 3 0 (max 0 3) (max 0 0) = (3, 0) from by decide]
    push_cast
    rw [show (3 : ℚ) - 3 + 0 = 0 from by norm_num]
    exact max_self 0

/-- C7: in the E block the candidate ES count is capped at the available
S (floored) and the candidate EP count at the available P, with shortfall
reassigned to the other channel up to its remaining capacity.  For the
state E = 100, S = 5, P = 0 (ES = EP = 0) with k1 large enough that
pTot = 1 (the f64 exponential underflows to 0) and k-3 = 0, the step
forms exactly 5 ES, 0 EP, and decreases E by exactly 5. -/
theorem simulateTick_overflow_reassignment (F : Flt) (rng : Rng) (σ : RSt)
    (t ns np k1v km1 k2v km2 k3v : ℚ) (hk1 : 0 < k1v)
    (hexp : F.expNeg (k1v * 5) = 0) :
    (simulateTick F rng ⟨100, 0, 0, 5, 0, t⟩
        ⟨100, 0, 0, ns, np, k1v, 0, km1, k2v, km2, k3v, none⟩ σ).1.ES = 5 ∧
      (simulateTick F rng ⟨100, 0, 0, 5, 0, t⟩
        ⟨100, 0, 0, ns, np, k1v, 0, km1, k2v, km2, k3v, none⟩ σ).1.EP = 0 ∧
      (simulateTick F rng ⟨100, 0, 0, 5, 0, t⟩
        ⟨100, 0, 0, ns, np, k1v, 0, km1, k2v, km2, k3v, none⟩ σ).1.EL = 95 ∧
      (simulateTick F rng ⟨100, 0, 0, 5, 0, t⟩
        ⟨100, 0, 0, ns, np, k1v, 0, km1, k2v, km2, k3v, none⟩ σ).1.S = 0 := by
  have h100 : roundJS (100 : ℚ) = 100 := by
    unfold roundJS
    rw [Int.floor_eq_iff]
    norm_num
  have h5 : max (5 : ℚ) 0 = 5 := max_eq_left (by norm_num)
  unfold simulateTick
  dsimp only [Option.getD]
  rw [eBlockCounts_sat F rng k1v 100 (max (5 : ℚ) 0) (max (0 : ℚ) 0) 1 σ 100
    (by norm_num) h100
    (by rw [h5, max_eq_right (by norm_num : (0 : ℚ) ≤ 5)]
        exact mul_pos hk1 (by norm_num))
    (by rw [h5, max_eq_right (by norm_num : (0 : ℚ) ≤ 5)]
        rw [show dtNorm 1 = 1 from by norm_num [dtNorm]]
        rw [mul_one]
        exact hexp)]
  dsimp only
  rw [convBlockCounts_popZero F rng km1 k2v 1 σ]
  dsimp only
  rw [convBlockCounts_popZero F rng km2 k3v 1 σ]
  dsimp only
  rw [h5, show max (0 : ℚ) 0 = 0 from max_self 0]
  rw [show (⌊(5 : ℚ)⌋ : ℤ) = 5 from by rw [Int.floor_eq_iff]; norm_num]
  rw [show (⌊(0 : ℚ)⌋ : ℤ) = 0 from by norm_num]
  rw [show capReassign 100 0 (max 0 5) (max 0 0) = (5, 0) from by decide]
  rw [show max (100 : ℚ) 0 = 100 from max_eq_left (by norm_num)]
  push_cast
  norm_num

/-- Closed instance of C7 at k1 = 1000 with the concrete oracle. -/
theorem simulateTick_overflow_reassignment_wit :
    ((0 : ℚ) < 1000 ∧ F0.expNeg (1000 * 5) = 0) ∧
    ((simulateTick F0 rng0 ⟨100, 0, 0, 5, 0, 0⟩
        ⟨100, 0, 0, 0, 0, 1000, 0, 1, 1, 1, 1, none⟩ rs0).1.ES = 5 ∧
      (simulateTick F0 rng0 ⟨100, 0, 0, 5, 0, 0⟩
        ⟨100, 0, 0, 0, 0, 1000, 0, 1, 1, 1, 1, none⟩ rs0).1.EP = 0 ∧
      (simulateTick F0 rng0 ⟨100, 0, 0, 5, 0, 0⟩
        ⟨100, 0, 0, 0, 0, 1000, 0, 1, 1, 1, 1, none⟩ rs0).1.EL = 95 ∧
      (simulateTick F0 rng0 ⟨100, 0, 0, 5, 0, 0⟩
        ⟨100, 0, 0, 0, 0, 1000, 0, 1, 1, 1, 1, none⟩ rs0).1.S = 0) :=
  ⟨⟨by norm_num, by norm_num [F0]⟩,
    simulateTick_overflow_reassignment F0 rng0 rs0 0 0 0 1000 1 1 1 1
      (by norm_num) (by norm_num [F0])⟩

theorem runSeries_length (F : Flt) (rng : Rng) (ps : SimParams) :
    ∀ (n : ℕ) (st : SimState) (σ : RSt), (runSeries F rng ps st σ n).1.length = n := by
  intro n
  induction n with
  | zero => intro st σ; rfl
  | succ m ih =>
    intro st σ
    unfold runSeries
    dsimp only
    rw [List.length_cons, ih]

theorem getLast?_cons_of_ne_nil {α : Type} (a : α) (l : List α) (h : l ≠ []) :
    (a :: l).getLast? = l.getLast? := by
  cases l with
  | nil => exact absurd rfl h
  | cons b t => exact List.getLast?_cons_cons

/-- C4 (spec-modelled drivers): for every initial state, parameters, oracle
and step count N of at least 1, the state returned by the final-state
driver equals the last element of the sequence returned by the series
driver, because both apply the identical per-step kernel N times while
threading the same random cursor. -/
theorem runToFinal_eq_runSeries_last (F : Flt) (rng : Rng) (ps : SimParams) :
    ∀ (N : ℕ) (st : SimState) (σ : RSt), 1 ≤ N →
      (runSeries F rng ps st σ N).1.getLast? = some (runToFinal F rng ps st σ N).1 := by
  intro N
  induction N with
  | zero => intro st σ h; exact absurd h (by norm_num)
  | succ n ih =>
    intro st σ h
    cases n with
    | zero => simp [runSeries, runToFinal]
    | succ m =>
      have hne : (runSeries F rng ps (simulateTick F rng st (stepParams ps st) σ).1
          (simulateTick F rng st (stepParams ps st) σ).2 (m + 1)).1 ≠ [] := by
        intro hc
        have hl := runSeries_length F rng ps (m + 1)
          (simulateTick F rng st (stepParams ps st) σ).1
          (simulateTick F rng st (stepParams ps st) σ).2
        rw [hc] at hl
        simp at hl
      show ((simulateTick F rng st (stepParams ps st) σ).1 ::
          (runSeries F rng ps (simulateTick F rng st (stepParams ps st) σ).1
            (simulateTick F rng st (stepParams ps st) σ).2 (m + 1)).1).getLast? =
        some (runToFinal F rng ps st σ (m + 2)).1
      rw [getLast?_cons_of_ne_nil _ _ hne]
      exact ih (simulateTick F rng st (stepParams ps st) σ).1
        (simulateTick F rng st (stepParams ps st) σ).2 (by omega)

/-- Closed instance of C4 at N = 1. -/
theorem runToFinal_eq_runSeries_last_wit :
    1 ≤ 1 ∧
      (runSeries F0 rng0 ⟨1, 1, 1, 0, 0, 0, 0, 0, 0, 0, 0, none⟩ ⟨1, 1, 1, 1, 1, 0⟩ rs0
          1).1.getLast? =
        some (runToFinal F0 rng0 ⟨1, 1, 1, 0, 0, 0, 0, 0, 0, 0, 0, none⟩ ⟨1, 1, 1, 1, 1, 0⟩
          rs0 1).1 :=
  ⟨by norm_num,
    runToFinal_eq_runSeries_last F0 rng0 ⟨1, 1, 1, 0, 0, 0, 0, 0, 0, 0, 0, none⟩ 1
      ⟨1, 1, 1, 1, 1, 0⟩ rs0 (by norm_num)⟩

end EnzymeSim
